/-
  Verification of the geometric-primitive core of a ray-tracing library:
  deformable triangle meshes (src/kernels/common/scene_triangle_mesh.h) and
  bicubic/hermite curves (src/kernels/common/scene_curves.h).

  Shallow embedding conventions:
  * Machine floats are modelled by `Flt`: an exact rational value or one of
    the non-finite values (NaN, +inf, -inf).  Finite arithmetic is exact
    (no rounding); non-finite operands follow standard float semantics.
  * `uint32_t` / `size_t` indices are modelled as `Nat`, with explicit
    `< 2^32` hypotheses where the packing of indices into wider words
    relies on their range.
  * Fallible C++ routines that write through an out-parameter are modelled
    by explicit state passing: they take the out-parameter's current value
    and return the pair (success flag, possibly-updated value).
-/
import Mathlib

namespace Embree

/-- Modelled from the spec: the scalar float type used by the math
utilities that live outside the repository slice.  A float is either an
exact finite rational or one of the non-finite values NaN, +inf, -inf;
finite arithmetic is exact (rounding is not modelled). -/
inductive Flt where
  | fin : ℚ → Flt
  | nan : Flt
  | pinf : Flt
  | ninf : Flt
deriving DecidableEq

/-- Modelled from the spec: float `<` comparison of the external math
utilities (IEEE semantics: NaN compares false with everything,
-inf below all finite values, +inf above). -/
def Flt.lt : Flt → Flt → Bool
  | Flt.fin a, Flt.fin b => decide (a < b)
  | Flt.nan, _ => false
  | _, Flt.nan => false
  | Flt.ninf, Flt.ninf => false
  | Flt.ninf, _ => true
  | _, Flt.ninf => false
  | Flt.pinf, _ => false
  | Flt.fin _, Flt.pinf => true

/-- Modelled from the spec: float `<=` comparison (IEEE semantics: NaN
compares false with everything). -/
def Flt.le : Flt → Flt → Bool
  | Flt.fin a, Flt.fin b => decide (a ≤ b)
  | Flt.nan, _ => false
  | _, Flt.nan => false
  | Flt.ninf, _ => true
  | _, Flt.ninf => false
  | _, Flt.pinf => true
  | Flt.pinf, _ => false

/-- Modelled from the spec: the binary `min` of the external math
utilities, `min(a,b) = a < b ? a : b`. -/
def Flt.min (a b : Flt) : Flt := if Flt.lt a b then a else b

/-- Modelled from the spec: the binary `max` of the external math
utilities, `max(a,b) = a < b ? b : a`. -/
def Flt.max (a b : Flt) : Flt := if Flt.lt a b then b else a

/-- Modelled from the spec: float negation. -/
def Flt.neg : Flt → Flt
  | Flt.fin a => Flt.fin (-a)
  | Flt.nan => Flt.nan
  | Flt.pinf => Flt.ninf
  | Flt.ninf => Flt.pinf

/-- Modelled from the spec: float addition; exact on finite values, NaN
propagates, inf + (-inf) = NaN, otherwise infinities absorb. -/
def Flt.add : Flt → Flt → Flt
  | Flt.fin a, Flt.fin b => Flt.fin (a + b)
  | Flt.nan, _ => Flt.nan
  | _, Flt.nan => Flt.nan
  | Flt.pinf, Flt.ninf => Flt.nan
  | Flt.ninf, Flt.pinf => Flt.nan
  | Flt.pinf, _ => Flt.pinf
  | _, Flt.pinf => Flt.pinf
  | Flt.ninf, _ => Flt.ninf
  | _, Flt.ninf => Flt.ninf

/-- Modelled from the spec: float subtraction, `a - b = a + (-b)`. -/
def Flt.sub (a b : Flt) : Flt := Flt.add a (Flt.neg b)

/-- Modelled from the spec: float multiplication; exact on finite values,
NaN propagates, 0 * inf = NaN, otherwise infinities multiply by sign. -/
def Flt.mul : Flt → Flt → Flt
  | Flt.fin a, Flt.fin b => Flt.fin (a * b)
  | Flt.nan, _ => Flt.nan
  | _, Flt.nan => Flt.nan
  | Flt.pinf, Flt.pinf => Flt.pinf
  | Flt.pinf, Flt.ninf => Flt.ninf
  | Flt.ninf, Flt.pinf => Flt.ninf
  | Flt.ninf, Flt.ninf => Flt.pinf
  | Flt.pinf, Flt.fin b => if b = 0 then Flt.nan else if 0 < b then Flt.pinf else Flt.ninf
  | Flt.ninf, Flt.fin b => if b = 0 then Flt.nan else if 0 < b then Flt.ninf else Flt.pinf
  | Flt.fin a, Flt.pinf => if a = 0 then Flt.nan else if 0 < a then Flt.pinf else Flt.ninf
  | Flt.fin a, Flt.ninf => if a = 0 then Flt.nan else if 0 < a then Flt.ninf else Flt.pinf

/-- A float is finite iff it is a `fin` value. -/
def Flt.isFinite : Flt → Bool
  | Flt.fin _ => true
  | _ => false

/-- A float is the NaN value. -/
def Flt.isNan : Flt → Bool
  | Flt.nan => true
  | _ => false

/-- Vectors of three float components (the x,y,z lanes of `Vec3fa`). -/
def Vec3f : Type := Fin 3 → Flt

/-- Modelled from the spec: `isvalid` on a three-component vector — every
component is finite (spec §4.3: "every referenced vertex's components are
finite"). -/
def isvalid3 (v : Vec3f) : Bool :=
  Flt.isFinite (v 0) && Flt.isFinite (v 1) && Flt.isFinite (v 2)

/-- Modelled from the spec: componentwise ternary min of the external math
utilities, `min(a,b,c) = min(min(a,b),c)`. -/
def vmin3 (a b c : Vec3f) : Vec3f := fun k => Flt.min (Flt.min (a k) (b k)) (c k)

/-- Modelled from the spec: componentwise ternary max of the external math
utilities, `max(a,b,c) = max(max(a,b),c)`. -/
def vmax3 (a b c : Vec3f) : Vec3f := fun k => Flt.max (Flt.max (a k) (b k)) (c k)

/-- Axis-aligned bounding box `BBox3fa`: lower and upper corner. -/
structure BBox3fa where
  lower : Vec3f
  upper : Vec3f

/-- Source `struct Triangle { uint32_t v[3]; }` — three vertex indices. -/
structure Triangle where
  v : Fin 3 → ℕ

/-- Source `struct Edge`: the canonical packed edge key,
`e = v0 < v1 ? (v1 << 32) | v0 : (v0 << 32) | v1`. -/
def Edge (v0 v1 : ℕ) : ℕ :=
  if v0 < v1 then v1 * 2 ^ 32 + v0 else v0 * 2 ^ 32 + v1

/-- Source `pair_order`: packs a rotation of triangle 0's slot indices and the
opposite-vertex slot of triangle 1 into one int,
`i0 | (i1 << 8) | (i2 << 16) | (j << 24)`. -/
def pair_order (i0 i1 i2 j : ℕ) : ℤ :=
  (i0 : ℤ) + (i1 : ℤ) * 2 ^ 8 + (i2 : ℤ) * 2 ^ 16 + (j : ℤ) * 2 ^ 24

/-- Source `TriangleMesh::sharedEdge`: compares the three canonical edges of each
triangle in the source's fixed order, returning the packed `pair_order`
of the first matching pair, and `-1` when no pair matches. -/
def sharedEdge (tri0 tri1 : Triangle) : ℤ :=
  let tri0_edge0 := Edge (tri0.v 0) (tri0.v 1)
  let tri0_edge1 := Edge (tri0.v 1) (tri0.v 2)
  let tri0_edge2 := Edge (tri0.v 2) (tri0.v 0)
  let tri1_edge0 := Edge (tri1.v 0) (tri1.v 1)
  let tri1_edge1 := Edge (tri1.v 1) (tri1.v 2)
  let tri1_edge2 := Edge (tri1.v 2) (tri1.v 0)
  if tri0_edge0 = tri1_edge0 then pair_order 1 2 0 2 else
  if tri0_edge1 = tri1_edge0 then pair_order 2 0 1 2 else
  if tri0_edge2 = tri1_edge0 then pair_order 0 1 2 2 else
  if tri0_edge0 = tri1_edge1 then pair_order 1 2 0 0 else
  if tri0_edge1 = tri1_edge1 then pair_order 2 0 1 0 else
  if tri0_edge2 = tri1_edge1 then pair_order 0 1 2 0 else
  if tri0_edge0 = tri1_edge2 then pair_order 1 2 0 1 else
  if tri0_edge1 = tri1_edge2 then pair_order 2 0 1 1 else
  if tri0_edge2 = tri1_edge2 then pair_order 0 1 2 1 else
  (-1)

/-- Clamp a rational to [0,1] (equal to `max 0 (min t 1)`). -/
def clamp01 (t : ℚ) : ℚ :=
  if t < 0 then 0 else if 1 < t then 1 else t

/-- Floor of a non-negative rational as a natural number (for `q ≥ 0`
this is `⌊q⌋`; negative inputs collapse to 0, matching the lower clamp
every use applies anyway). -/
def natFloor (q : ℚ) : ℕ := q.num.toNat / q.den

/-- Modelled from the spec: `getTimeSegment` of the time-sampling engine,
which lives outside the repository slice (spec §4.2 `mapTime`): clamp
`time` to [0,1]; `scaled = time * numSegments`; the segment is
`floor(scaled)` clamped to `[0, numSegments-1]`; the fraction is
`scaled - segment`.  Time values are taken finite (the clamp makes any
representable input finite). -/
def getTimeSegment (time : ℚ) (numSegments : ℕ) : ℕ × ℚ :=
  let t := clamp01 time
  let scaled := t * (numSegments : ℚ)
  let segment := Nat.min (natFloor scaled) (numSegments - 1)
  (segment, scaled - (segment : ℚ))

/-- Modelled from the spec: linear interpolation of the external math
utilities, `lerp(a,b,t) = (1-t)*a + t*b`, with a finite parameter `t`. -/
def Flt.lerp (a b : Flt) (t : ℚ) : Flt :=
  Flt.add (Flt.mul (Flt.fin (1 - t)) a) (Flt.mul (Flt.fin t) b)

/-- Componentwise `lerp` of two boxes (`lerp(BBox3fa,BBox3fa,t)`). -/
def lerpBox (b0 b1 : BBox3fa) (t : ℚ) : BBox3fa :=
  { lower := fun k => Flt.lerp (b0.lower k) (b1.lower k) t
    upper := fun k => Flt.lerp (b0.upper k) (b1.upper k) t }

/-- The triangle-mesh model: triangle array, per-time-step vertex arrays
and the counts the queries read.  `vert itime i` is `vertices[itime][i]`;
the cached first-time-step view `vertices0` coincides with `vert 0`
(data-model invariant of spec §3), so it is represented by `vert 0`
directly. -/
structure TriangleMesh where
  numTimeSteps : ℕ
  numVertices : ℕ
  tri : ℕ → Triangle
  vert : ℕ → ℕ → Vec3f

namespace TriangleMesh

/-- Accessor `triangle(i)` — the i'th triangle. -/
def triangle (m : TriangleMesh) (i : ℕ) : Triangle := m.tri i

/-- Accessor `vertex(i)` — the i'th vertex of the first time step (`vertices0`). -/
def vertex0 (m : TriangleMesh) (i : ℕ) : Vec3f := m.vert 0 i

/-- Accessor `vertex(i,itime)` — the i'th vertex of the itime'th time step. -/
def vertex (m : TriangleMesh) (i itime : ℕ) : Vec3f := m.vert itime i

/-- Field `fnumTimeSegments = numTimeSteps - 1` as a scalar. -/
def numSegments (m : TriangleMesh) : ℕ := m.numTimeSteps - 1

/-- Source `bounds(i)`: box of the i'th triangle over the first time step,
`BBox3fa(min(v0,v1,v2), max(v0,v1,v2))`. -/
def bounds0 (m : TriangleMesh) (i : ℕ) : BBox3fa :=
  let t := m.triangle i
  let v0 := m.vertex0 (t.v 0)
  let v1 := m.vertex0 (t.v 1)
  let v2 := m.vertex0 (t.v 2)
  { lower := vmin3 v0 v1 v2, upper := vmax3 v0 v1 v2 }

/-- Source `bounds(i,itime)`: box of the i'th triangle at the itime'th step. -/
def bounds (m : TriangleMesh) (i itime : ℕ) : BBox3fa :=
  let t := m.triangle i
  let v0 := m.vertex (t.v 0) itime
  let v1 := m.vertex (t.v 1) itime
  let v2 := m.vertex (t.v 2) itime
  { lower := vmin3 v0 v1 v2, upper := vmax3 v0 v1 v2 }

/-- Source `bounds(i,time)`: interpolated box of the i'th triangle at a
continuous time — `lerp` of the two bracketing per-step boxes. -/
def boundsAtTime (m : TriangleMesh) (i : ℕ) (time : ℚ) : BBox3fa :=
  let s := getTimeSegment time m.numSegments
  lerpBox (m.bounds i s.1) (m.bounds i (s.1 + 1)) s.2

/-- Source `valid(i, itime_lower, itime_upper)`: vertex indices below the vertex
count, and every referenced vertex finite at every step of the range. -/
def valid (m : TriangleMesh) (i itime_lower itime_upper : ℕ) : Bool :=
  let t := m.triangle i
  if m.numVertices ≤ t.v 0 then false else
  if m.numVertices ≤ t.v 1 then false else
  if m.numVertices ≤ t.v 2 then false else
  (List.range' itime_lower (itime_upper + 1 - itime_lower)).all fun itime =>
    isvalid3 (m.vertex (t.v 0) itime) &&
    isvalid3 (m.vertex (t.v 1) itime) &&
    isvalid3 (m.vertex (t.v 2) itime)

/-- Source `valid(i,itime)` = `valid(i,itime,itime)`. -/
def valid1 (m : TriangleMesh) (i itime : ℕ) : Bool :=
  m.valid i itime itime

/-- Source `buildBounds(i, BBox3fa* bbox)` (all-time-steps variant), with the
out-parameter passed as explicit state: checks the vertex indices, then
every time step's vertices for finiteness, and only then writes the
first-time-step box `bounds(i)` through the (non-null) out-pointer. -/
def buildBounds (m : TriangleMesh) (i : ℕ) (bbox : BBox3fa) : Bool × BBox3fa :=
  let t := m.triangle i
  if m.numVertices ≤ t.v 0 then (false, bbox) else
  if m.numVertices ≤ t.v 1 then (false, bbox) else
  if m.numVertices ≤ t.v 2 then (false, bbox) else
  if (List.range m.numTimeSteps).all (fun s =>
        isvalid3 (m.vertex (t.v 0) s) &&
        isvalid3 (m.vertex (t.v 1) s) &&
        isvalid3 (m.vertex (t.v 2) s)) then
    (true, m.bounds0 i)
  else (false, bbox)

/-- Source `buildBounds(i, itime, bbox)` (per-segment variant), with the
out-parameter passed as explicit state: checks the vertex indices and the
six vertices of steps `itime` and `itime+1`, returning before any write
on failure; on success writes the step-`itime` box. -/
def buildBoundsSeg (m : TriangleMesh) (i itime : ℕ) (bbox : BBox3fa) :
    Bool × BBox3fa :=
  let t := m.triangle i
  if m.numVertices ≤ t.v 0 then (false, bbox) else
  if m.numVertices ≤ t.v 1 then (false, bbox) else
  if m.numVertices ≤ t.v 2 then (false, bbox) else
  let a0 := m.vertex (t.v 0) itime
  if !isvalid3 a0 then (false, bbox) else
  let a1 := m.vertex (t.v 1) itime
  if !isvalid3 a1 then (false, bbox) else
  let a2 := m.vertex (t.v 2) itime
  if !isvalid3 a2 then (false, bbox) else
  let b0 := m.vertex (t.v 0) (itime + 1)
  if !isvalid3 b0 then (false, bbox) else
  let b1 := m.vertex (t.v 1) (itime + 1)
  if !isvalid3 b1 then (false, bbox) else
  let b2 := m.vertex (t.v 2) (itime + 1)
  if !isvalid3 b2 then (false, bbox) else
  (true, { lower := vmin3 a0 a1 a2, upper := vmax3 a0 a1 a2 })

/-- One iteration of the expansion loop of
`linearBounds(primID, time_range)`: interpolate the current endpoint
boxes at the step's relative position `f`, compare against the true
per-step box, and move both endpoint boxes outward by the per-axis
deficit/surplus. -/
def linearBoundsStep (m : TriangleMesh) (primID : ℕ) (t0 t1 : ℚ)
    (bb : BBox3fa × BBox3fa) (i : ℕ) : BBox3fa × BBox3fa :=
  let f : ℚ := ((i : ℚ) / (m.numSegments : ℚ) - t0) / (t1 - t0)
  let bt := lerpBox bb.1 bb.2 f
  let bi := m.bounds primID i
  let dlower : Vec3f := fun k =>
    Flt.min (Flt.sub (bi.lower k) (bt.lower k)) (Flt.fin 0)
  let dupper : Vec3f := fun k =>
    Flt.max (Flt.sub (bi.upper k) (bt.upper k)) (Flt.fin 0)
  ({ lower := fun k => Flt.add (bb.1.lower k) (dlower k)
     upper := fun k => Flt.add (bb.1.upper k) (dupper k) },
   { lower := fun k => Flt.add (bb.2.lower k) (dlower k)
     upper := fun k => Flt.add (bb.2.upper k) (dupper k) })

/-- Source `linearBounds(primID, time_range)`: endpoint boxes interpolated at the
range ends, then expanded over every discrete step inside the range
(`ilower = ceil(t0*numSegments)` to `iupper = floor(t1*numSegments)`).
Time ranges are within [0,1], so the loop indices are non-negative. -/
def linearBounds (m : TriangleMesh) (primID : ℕ) (t0 t1 : ℚ) :
    BBox3fa × BBox3fa :=
  let b0 := m.boundsAtTime primID t0
  let b1 := m.boundsAtTime primID t1
  let ilower : ℕ := Int.toNat ⌈t0 * (m.numSegments : ℚ)⌉
  let iupper : ℕ := Int.toNat ⌊t1 * (m.numSegments : ℚ)⌋
  (List.range' ilower (iupper + 1 - ilower)).foldl
    (linearBoundsStep m primID t0 t1) (b0, b1)

end TriangleMesh

/-- Vectors of four float components (`Vec3fa` with its embedded fourth
lane, which carries the curve radius / its derivative; the interpolation
in the curve gathers processes all four lanes). -/
def Vec4f : Type := Fin 4 → Flt

/-- Modelled from the spec: `madd(Vec3fa(s), a, t*b)` as used by the curve
gathers — componentwise `s*a + t*b` with finite scalars `s`, `t`. -/
def madd4 (s : ℚ) (a : Vec4f) (t : ℚ) (b : Vec4f) : Vec4f :=
  fun k => Flt.add (Flt.mul (Flt.fin s) (a k)) (Flt.mul (Flt.fin t) (b k))

/-- The curve-geometry model: per-time-step control-point and tangent
arrays plus the time-step count.  `vert itime i` is `vertices[itime][i]`,
`tang itime i` is `tangents[itime][i]`. -/
structure CurveGeometry where
  numTimeSteps : ℕ
  vert : ℕ → ℕ → Vec4f
  tang : ℕ → ℕ → Vec4f

namespace CurveGeometry

/-- Accessor `vertex(i,itime)`. -/
def vertex (c : CurveGeometry) (i itime : ℕ) : Vec4f := c.vert itime i

/-- Accessor `tangent(i,itime)`. -/
def tangent (c : CurveGeometry) (i itime : ℕ) : Vec4f := c.tang itime i

/-- Field `fnumTimeSegments = numTimeSteps - 1`. -/
def numSegments (c : CurveGeometry) : ℕ := c.numTimeSteps - 1

/-- Source `gather(p0,p1,p2,p3, i, itime)`: the four control points of the curve
starting at vertex `i`, at one time step. -/
def gather (c : CurveGeometry) (i itime : ℕ) :
    Vec4f × Vec4f × Vec4f × Vec4f :=
  (c.vertex i itime, c.vertex (i + 1) itime,
   c.vertex (i + 2) itime, c.vertex (i + 3) itime)

/-- Source `gather(p0,p1,p2,p3, i, time)`: the four control points at a
continuous time — per-component `madd` blend of the two bracketing
steps with weights `1-ftime` and `ftime`. -/
def gatherTime (c : CurveGeometry) (i : ℕ) (time : ℚ) :
    Vec4f × Vec4f × Vec4f × Vec4f :=
  let s := getTimeSegment time c.numSegments
  let t0 := 1 - s.2
  let t1 := s.2
  let a := c.gather i s.1
  let b := c.gather i (s.1 + 1)
  (madd4 t0 a.1 t1 b.1, madd4 t0 a.2.1 t1 b.2.1,
   madd4 t0 a.2.2.1 t1 b.2.2.1, madd4 t0 a.2.2.2 t1 b.2.2.2)

/-- Source `gather_hermite(p0,t0,p1,t1, i, itime)`: the two positions and two
tangents of the hermite curve starting at vertex `i`, at one step. -/
def gather_hermite (c : CurveGeometry) (i itime : ℕ) :
    Vec4f × Vec4f × Vec4f × Vec4f :=
  (c.vertex i itime, c.tangent i itime,
   c.vertex (i + 1) itime, c.tangent (i + 1) itime)

/-- Source `gather_hermite(p0,t0,p1,t1, i, time)`: hermite data at a continuous
time — per-component `madd` blend of the two bracketing steps with
weights `1-ftime` and `ftime`. -/
def gather_hermiteTime (c : CurveGeometry) (i : ℕ) (time : ℚ) :
    Vec4f × Vec4f × Vec4f × Vec4f :=
  let s := getTimeSegment time c.numSegments
  let f0 := 1 - s.2
  let f1 := s.2
  let a := c.gather_hermite i s.1
  let b := c.gather_hermite i (s.1 + 1)
  (madd4 f0 a.1 f1 b.1, madd4 f0 a.2.1 f1 b.2.1,
   madd4 f0 a.2.2.1 f1 b.2.2.1, madd4 f0 a.2.2.2 f1 b.2.2.2)

end CurveGeometry

/-- Modelled from the spec (for comparison with the source order): the
edge-pair iteration order the spec claims for `sharedEdge` — triangle 0's
edges as the outer loop, triangle 1's edges as the inner loop, returning
on the first match. -/
def sharedEdgeSpecOrder (tri0 tri1 : Triangle) : ℤ :=
  let tri0_edge0 := Edge (tri0.v 0) (tri0.v 1)
  let tri0_edge1 := Edge (tri0.v 1) (tri0.v 2)
  let tri0_edge2 := Edge (tri0.v 2) (tri0.v 0)
  let tri1_edge0 := Edge (tri1.v 0) (tri1.v 1)
  let tri1_edge1 := Edge (tri1.v 1) (tri1.v 2)
  let tri1_edge2 := Edge (tri1.v 2) (tri1.v 0)
  if tri0_edge0 = tri1_edge0 then pair_order 1 2 0 2 else
  if tri0_edge0 = tri1_edge1 then pair_order 1 2 0 0 else
  if tri0_edge0 = tri1_edge2 then pair_order 1 2 0 1 else
  if tri0_edge1 = tri1_edge0 then pair_order 2 0 1 2 else
  if tri0_edge1 = tri1_edge1 then pair_order 2 0 1 0 else
  if tri0_edge1 = tri1_edge2 then pair_order 2 0 1 1 else
  if tri0_edge2 = tri1_edge0 then pair_order 0 1 2 2 else
  if tri0_edge2 = tri1_edge1 then pair_order 0 1 2 0 else
  if tri0_edge2 = tri1_edge2 then pair_order 0 1 2 1 else
  (-1)

/-- First match over a list of (edge of tri0, edge of tri1, packed result)
candidates; the sentinel `-1` when none matches. -/
def firstMatch : List (ℕ × ℕ × ℤ) → ℤ
  | [] => -1
  | p :: rest => if p.1 = p.2.1 then p.2.2 else firstMatch rest

/-- The nine edge pairs of `sharedEdge` in the source's priority order:
triangle 1's edges form the outer groups, triangle 0's edges the inner
rotation. -/
def edgePairs (tri0 tri1 : Triangle) : List (ℕ × ℕ × ℤ) :=
  [(Edge (tri0.v 0) (tri0.v 1), Edge (tri1.v 0) (tri1.v 1), pair_order 1 2 0 2),
   (Edge (tri0.v 1) (tri0.v 2), Edge (tri1.v 0) (tri1.v 1), pair_order 2 0 1 2),
   (Edge (tri0.v 2) (tri0.v 0), Edge (tri1.v 0) (tri1.v 1), pair_order 0 1 2 2),
   (Edge (tri0.v 0) (tri0.v 1), Edge (tri1.v 1) (tri1.v 2), pair_order 1 2 0 0),
   (Edge (tri0.v 1) (tri0.v 2), Edge (tri1.v 1) (tri1.v 2), pair_order 2 0 1 0),
   (Edge (tri0.v 2) (tri0.v 0), Edge (tri1.v 1) (tri1.v 2), pair_order 0 1 2 0),
   (Edge (tri0.v 0) (tri0.v 1), Edge (tri1.v 2) (tri1.v 0), pair_order 1 2 0 1),
   (Edge (tri0.v 1) (tri0.v 2), Edge (tri1.v 2) (tri1.v 0), pair_order 2 0 1 1),
   (Edge (tri0.v 2) (tri0.v 0), Edge (tri1.v 2) (tri1.v 0), pair_order 0 1 2 1)]

/-- The set of vertex index values the two triangles share. -/
def sharedVals (tri0 tri1 : Triangle) : Finset ℕ :=
  (Finset.univ.image tri0.v) ∩ (Finset.univ.image tri1.v)

/-- Both triangles have a degenerate (repeated-vertex) edge on one common
vertex value.  Since every pair of a triangle's three slots forms an
edge, this is the only situation in which two triangles sharing at most
one vertex value can still match an edge pair. -/
def degenerateShare (tri0 tri1 : Triangle) : Prop :=
  ∃ p q r s : Fin 3, p ≠ q ∧ r ≠ s ∧
    tri0.v p = tri0.v q ∧ tri1.v r = tri1.v s ∧ tri0.v p = tri1.v r

/-- Embedding of an exact rational 3-vector into float vectors. -/
def finV3 (w : Fin 3 → ℚ) : Vec3f := fun k => Flt.fin (w k)

/-- Embedding of an exact rational 4-vector into float vectors. -/
def finV4 (w : Fin 4 → ℚ) : Vec4f := fun k => Flt.fin (w k)

/-- Exact-rational axis-aligned box (proof-side mirror of `BBox3fa`). -/
structure QBox where
  lower : Fin 3 → ℚ
  upper : Fin 3 → ℚ

/-- Embedding of an exact rational box into float boxes. -/
def finBox (b : QBox) : BBox3fa :=
  { lower := finV3 b.lower, upper := finV3 b.upper }

/-- Exact-rational mirror of `bounds(i,itime)` for a mesh whose vertex
data is the rational field `w`. -/
def qbounds (m : TriangleMesh) (w : ℕ → ℕ → Fin 3 → ℚ) (i itime : ℕ) : QBox :=
  let t := m.triangle i
  { lower := fun k =>
      Min.min (Min.min (w itime (t.v 0) k) (w itime (t.v 1) k)) (w itime (t.v 2) k)
    upper := fun k =>
      Max.max (Max.max (w itime (t.v 0) k) (w itime (t.v 1) k)) (w itime (t.v 2) k) }

/-- Exact-rational mirror of the componentwise box `lerp`. -/
def qlerpBox (a b : QBox) (t : ℚ) : QBox :=
  { lower := fun k => (1 - t) * a.lower k + t * b.lower k
    upper := fun k => (1 - t) * a.upper k + t * b.upper k }

/-- Exact-rational mirror of `bounds(i,time)`. -/
def qboundsAtTime (m : TriangleMesh) (w : ℕ → ℕ → Fin 3 → ℚ) (i : ℕ)
    (time : ℚ) : QBox :=
  let s := getTimeSegment time m.numSegments
  qlerpBox (qbounds m w i s.1) (qbounds m w i (s.1 + 1)) s.2

/-- The relative position of discrete step `i` inside the time range
`[t0,t1]`, as computed by the `linearBounds` loop. -/
def frel (ns : ℕ) (t0 t1 : ℚ) (i : ℕ) : ℚ :=
  ((i : ℚ) / (ns : ℚ) - t0) / (t1 - t0)

/-- Exact-rational mirror of one `linearBounds` expansion iteration. -/
def qlbStep (m : TriangleMesh) (w : ℕ → ℕ → Fin 3 → ℚ) (primID : ℕ)
    (t0 t1 : ℚ) (bb : QBox × QBox) (i : ℕ) : QBox × QBox :=
  let f := frel m.numSegments t0 t1 i
  let bt := qlerpBox bb.1 bb.2 f
  let bi := qbounds m w primID i
  let dlower : Fin 3 → ℚ := fun k => Min.min (bi.lower k - bt.lower k) 0
  let dupper : Fin 3 → ℚ := fun k => Max.max (bi.upper k - bt.upper k) 0
  ({ lower := fun k => bb.1.lower k + dlower k
     upper := fun k => bb.1.upper k + dupper k },
   { lower := fun k => bb.2.lower k + dlower k
     upper := fun k => bb.2.upper k + dupper k })

/-- Exact-rational mirror of `linearBounds(primID, time_range)`. -/
def qlinearBounds (m : TriangleMesh) (w : ℕ → ℕ → Fin 3 → ℚ) (primID : ℕ)
    (t0 t1 : ℚ) : QBox × QBox :=
  let b0 := qboundsAtTime m w primID t0
  let b1 := qboundsAtTime m w primID t1
  let ilower : ℕ := Int.toNat ⌈t0 * (m.numSegments : ℚ)⌉
  let iupper : ℕ := Int.toNat ⌊t1 * (m.numSegments : ℚ)⌋
  (List.range' ilower (iupper + 1 - ilower)).foldl
    (qlbStep m w primID t0 t1) (b0, b1)

/-- Scalar (one axis, lower bounds) mirror of the expansion iteration:
state is the pair of the two endpoint boxes' lower values on one axis,
`f` the per-step relative position, `g` the per-step true lower value. -/
def sstepLo (f g : ℕ → ℚ) (s : ℚ × ℚ) (i : ℕ) : ℚ × ℚ :=
  (s.1 + Min.min (g i - ((1 - f i) * s.1 + f i * s.2)) 0,
   s.2 + Min.min (g i - ((1 - f i) * s.1 + f i * s.2)) 0)

/-- Scalar (one axis, upper bounds) mirror of the expansion iteration. -/
def sstepUp (f g : ℕ → ℚ) (s : ℚ × ℚ) (i : ℕ) : ℚ × ℚ :=
  (s.1 + Max.max (g i - ((1 - f i) * s.1 + f i * s.2)) 0,
   s.2 + Max.max (g i - ((1 - f i) * s.1 + f i * s.2)) 0)

/-- Concrete triangle (0,1,2). -/
def T012 : Triangle := ⟨![0, 1, 2]⟩

/-- Concrete triangle (1,0,3). -/
def T103 : Triangle := ⟨![1, 0, 3]⟩

/-- Concrete triangle (1,2,0). -/
def T120 : Triangle := ⟨![1, 2, 0]⟩

/-- Concrete triangle (5,1,2), with an out-of-range vertex index for a
mesh with three vertices. -/
def T512 : Triangle := ⟨![5, 1, 2]⟩

/-- Concrete triangle (3,4,5), disjoint from (0,1,2). -/
def T345 : Triangle := ⟨![3, 4, 5]⟩

/-- Concrete degenerate triangle (0,0,1). -/
def T001 : Triangle := ⟨![0, 0, 1]⟩

/-- Concrete degenerate triangle (0,0,2). -/
def T002 : Triangle := ⟨![0, 0, 2]⟩

/-- Concrete rational vertex field: every vertex at the origin. -/
def wZero : ℕ → ℕ → Fin 3 → ℚ := fun _ _ _ => 0

/-- Concrete two-step mesh with all-finite (rational) vertex data. -/
def mQ : TriangleMesh :=
  { numTimeSteps := 2
    numVertices := 4
    tri := fun _ => T012
    vert := fun itime j => finV3 (wZero itime j) }

/-- Concrete mesh whose vertices are all NaN. -/
def mNan : TriangleMesh :=
  { numTimeSteps := 1
    numVertices := 3
    tri := fun _ => T012
    vert := fun _ _ _ => Flt.nan }

/-- Concrete mesh whose triangle references an out-of-range vertex. -/
def mBad : TriangleMesh :=
  { numTimeSteps := 2
    numVertices := 3
    tri := fun _ => T512
    vert := fun itime j => finV3 (wZero itime j) }

/-- Concrete curve whose step-1 control points are +inf (step 0 finite). -/
def cInf : CurveGeometry :=
  { numTimeSteps := 2
    vert := fun itime _ _ => if itime = 0 then Flt.fin 0 else Flt.pinf
    tang := fun _ _ _ => Flt.fin 0 }

/-- Concrete rational control-point field (all zero). -/
def wCurve : ℕ → ℕ → Fin 4 → ℚ := fun _ _ _ => 0

/-- Concrete two-step curve with all-finite (rational) data. -/
def cQ : CurveGeometry :=
  { numTimeSteps := 2
    vert := fun itime j => finV4 (wCurve itime j)
    tang := fun itime j => finV4 (wCurve itime j) }

/-! Reduction lemmas: the float operations agree with exact rational
arithmetic on finite operands. -/

theorem Flt.le_fin_fin (a b : ℚ) :
    Flt.le (Flt.fin a) (Flt.fin b) = true ↔ a ≤ b := by
  simp [Flt.le]

theorem Flt.min_fin_fin (a b : ℚ) :
    Flt.min (Flt.fin a) (Flt.fin b) = Flt.fin (Min.min a b) := by
  by_cases h : a < b
  · simp [Flt.min, Flt.lt, h, min_eq_left (le_of_lt h)]
  · simp [Flt.min, Flt.lt, h, min_eq_right (le_of_not_lt h)]

theorem Flt.max_fin_fin (a b : ℚ) :
    Flt.max (Flt.fin a) (Flt.fin b) = Flt.fin (Max.max a b) := by
  by_cases h : a < b
  · simp [Flt.max, Flt.lt, h, max_eq_right (le_of_lt h)]
  · simp [Flt.max, Flt.lt, h, max_eq_left (le_of_not_lt h)]

theorem Flt.add_fin_fin (a b : ℚ) :
    Flt.add (Flt.fin a) (Flt.fin b) = Flt.fin (a + b) := rfl

theorem Flt.sub_fin_fin (a b : ℚ) :
    Flt.sub (Flt.fin a) (Flt.fin b) = Flt.fin (a - b) := by
  simp [Flt.sub, Flt.neg, Flt.add, sub_eq_add_neg]

theorem Flt.mul_fin_fin (a b : ℚ) :
    Flt.mul (Flt.fin a) (Flt.fin b) = Flt.fin (a * b) := rfl

theorem Flt.lerp_fin_fin (a b t : ℚ) :
    Flt.lerp (Flt.fin a) (Flt.fin b) t = Flt.fin ((1 - t) * a + t * b) := rfl

end Embree

open Embree

/-- C3 (counterexample): for `tri0 = (0,1,2)` and `tri1 = (1,2,0)` all
three edge pairs match, and the code's first match (its outer loop runs
over tri1's edges) differs from the first match of the tri0-edge-major
priority order the claim states. -/
theorem C3_counterexample :
    sharedEdge T012 T120 = pair_order 2 0 1 2 ∧
    sharedEdgeSpecOrder T012 T120 = pair_order 1 2 0 1 ∧
    sharedEdge T012 T120 ≠ sharedEdgeSpecOrder T012 T120 := by decide

/-- C3 (amended): `sharedEdge` equals the first match over the nine edge
pairs in a fixed priority order — with TRIANGLE 1's edges as the outer
loop and triangle 0's edges as the inner rotation — so degenerate
multi-match inputs are resolved deterministically by that order. -/
theorem C3_sharedEdge_priority (tri0 tri1 : Triangle) :
    sharedEdge tri0 tri1 = firstMatch (edgePairs tri0 tri1) := rfl

/-- C6: for `T0=(0,1,2)` and `T1=(1,0,3)`, `sharedEdge` returns the
non-sentinel packed value `pair_order(1,2,0,2)`; its bits 24..31 decode
to slot 2 of triangle 1, a slot not on the shared edge, and triangle 1's
vertex there is index 3. -/
theorem C6_sharedEdge_example :
    sharedEdge T012 T103 = pair_order 1 2 0 2 ∧
    0 ≤ sharedEdge T012 T103 ∧
    (sharedEdge T012 T103).toNat / 2 ^ 24 % 2 ^ 8 = 2 ∧
    T103.v 2 = 3 ∧ T103.v 2 ≠ T103.v 0 ∧ T103.v 2 ≠ T103.v 1 := by decide

/-- Two canonical edges over indices below 2^32 are equal iff they join
the same unordered pair of vertex indices. -/
theorem Edge_eq_iff (a b c d : ℕ) (ha : a < 2 ^ 32) (hb : b < 2 ^ 32)
    (hc : c < 2 ^ 32) (hd : d < 2 ^ 32) :
    Edge a b = Edge c d ↔ (a = c ∧ b = d) ∨ (a = d ∧ b = c) := by
  simp only [Edge]
  split_ifs <;> omega

/-- C2 (counterexample): two triangles with identical vertex sets given
in the same order share their first edge pair, so `sharedEdge` returns
the non-sentinel `pair_order(1,2,0,2)`, not `-1` as the claim states;
and the 0-or-1-shared-vertices part also fails in exactly one degenerate
situation, (0,0,1) vs (0,0,2): they share the single value 0, yet both
have the degenerate edge {0,0}, which matches first. -/
theorem C2_counterexample :
    (sharedEdge T012 T012 = pair_order 1 2 0 2 ∧ sharedEdge T012 T012 ≠ -1) ∧
    ((sharedVals T001 T002).card ≤ 1 ∧
     sharedEdge T001 T002 = pair_order 1 2 0 2 ∧ sharedEdge T001 T002 ≠ -1) := by
  decide

/-- C2 (amended): `sharedEdge` returns the sentinel `-1` whenever the
two triangles share at most one vertex value, except in the single
degenerate situation exhibited by the counterexample — both triangles
carrying a repeated-vertex edge on one common value; in particular the
sentinel is always returned when no vertex value is shared.  Identical
same-order triangles instead return the first-priority non-sentinel
match (see the counterexample). -/
theorem C2_sharedEdge_sentinel (tri0 tri1 : Triangle)
    (h0 : ∀ k, tri0.v k < 2 ^ 32) (h1 : ∀ k, tri1.v k < 2 ^ 32)
    (hs : (sharedVals tri0 tri1).card ≤ 1)
    (hdeg : ¬ degenerateShare tri0 tri1) :
    sharedEdge tri0 tri1 = -1 := by
  have hmem : ∀ x : ℕ, (∃ p : Fin 3, tri0.v p = x) → (∃ r : Fin 3, tri1.v r = x) →
      x ∈ sharedVals tri0 tri1 := by
    intro x hp hr
    rcases hp with ⟨p, hp⟩
    rcases hr with ⟨r, hr⟩
    simp only [sharedVals, Finset.mem_inter, Finset.mem_image]
    exact ⟨⟨p, Finset.mem_univ p, hp⟩, ⟨r, Finset.mem_univ r, hr⟩⟩
  have key : ∀ p q r s : Fin 3, p ≠ q → r ≠ s →
      Edge (tri0.v p) (tri0.v q) ≠ Edge (tri1.v r) (tri1.v s) := by
    intro p q r s hpq hrs heq
    have hcases := (Edge_eq_iff (tri0.v p) (tri0.v q) (tri1.v r) (tri1.v s)
      (h0 p) (h0 q) (h1 r) (h1 s)).mp heq
    by_cases hval : tri0.v p = tri0.v q
    · rcases hcases with ⟨ha, hb⟩ | ⟨ha, hb⟩ <;>
        exact hdeg ⟨p, q, r, s, hpq, hrs, hval, by omega, by omega⟩
    · have hmp : tri0.v p ∈ sharedVals tri0 tri1 := by
        rcases hcases with ⟨hc, _⟩ | ⟨hc, _⟩
        · exact hmem _ ⟨p, rfl⟩ ⟨r, hc.symm⟩
        · exact hmem _ ⟨p, rfl⟩ ⟨s, hc.symm⟩
      have hmq : tri0.v q ∈ sharedVals tri0 tri1 := by
        rcases hcases with ⟨_, hc⟩ | ⟨_, hc⟩
        · exact hmem _ ⟨q, rfl⟩ ⟨s, hc.symm⟩
        · exact hmem _ ⟨q, rfl⟩ ⟨r, hc.symm⟩
      have : 1 < (sharedVals tri0 tri1).card :=
        Finset.one_lt_card.mpr ⟨tri0.v p, hmp, tri0.v q, hmq, hval⟩
      omega
  simp only [sharedEdge]
  rw [if_neg (key 0 1 0 1 (by decide) (by decide)),
    if_neg (key 1 2 0 1 (by decide) (by decide)),
    if_neg (key 2 0 0 1 (by decide) (by decide)),
    if_neg (key 0 1 1 2 (by decide) (by decide)),
    if_neg (key 1 2 1 2 (by decide) (by decide)),
    if_neg (key 2 0 1 2 (by decide) (by decide)),
    if_neg (key 0 1 2 0 (by decide) (by decide)),
    if_neg (key 1 2 2 0 (by decide) (by decide)),
    if_neg (key 2 0 2 0 (by decide) (by decide))]

/-- For non-negative rationals, `natFloor` agrees with the floor. -/
theorem natFloor_eq (q : ℚ) (hq : 0 ≤ q) : (natFloor q : ℤ) = ⌊q⌋ := by
  have hnum : 0 ≤ q.num := Rat.num_nonneg.mpr hq
  have htn : (q.num.toNat : ℤ) = q.num := Int.toNat_of_nonneg hnum
  rw [Rat.floor_def, natFloor, Int.ofNat_div, htn]
  exact Int.tdiv_eq_ediv hnum (Int.ofNat_nonneg q.den)

/-- Characterization of `natFloor` on an interval. -/
theorem natFloor_spec (q : ℚ) (n : ℕ) (h1 : (n : ℚ) ≤ q)
    (h2 : q < (n : ℚ) + 1) : natFloor q = n := by
  have hq : 0 ≤ q := le_trans (by positivity) h1
  have hf := natFloor_eq q hq
  have hz : ⌊q⌋ = (n : ℤ) := by
    rw [Int.floor_eq_iff]
    constructor
    · exact_mod_cast h1
    · push_cast
      exact h2
  omega

/-- C4: the time mapping clamps, scales and floors as specified; the
segment is always at most `numSegments - 1`, so `segment + 1` is a valid
time-step index; and the three concrete examples with three segments
(`numTimeSteps = 4`) evaluate as the spec states. -/
theorem C4_getTimeSegment (time : ℚ) (numSegments : ℕ)
    (h : 1 ≤ numSegments) :
    (getTimeSegment time numSegments).1 + 1 ≤ numSegments ∧
    getTimeSegment 0 3 = (0, 0) ∧
    getTimeSegment 1 3 = (2, 1) ∧
    getTimeSegment (1 / 2) 3 = (1, 1 / 2) := by
  refine ⟨?_, ?_, ?_, ?_⟩
  · simp only [getTimeSegment]
    have h2 := Nat.min_le_right
      (natFloor (clamp01 time * (numSegments : ℚ))) (numSegments - 1)
    have h3 : numSegments - 1 + 1 = numSegments := Nat.succ_pred_eq_of_pos h
    exact h3 ▸ Nat.add_le_add_right h2 1
  · have hc : clamp01 (0 : ℚ) = 0 := by norm_num [clamp01]
    have hf : natFloor ((0 : ℚ) * ((3 : ℕ) : ℚ)) = 0 :=
      natFloor_spec _ 0 (by push_cast; norm_num) (by push_cast; norm_num)
    simp only [getTimeSegment, hc, hf, Prod.mk.injEq]
    norm_num
  · have hc : clamp01 (1 : ℚ) = 1 := by norm_num [clamp01]
    have hf : natFloor ((1 : ℚ) * ((3 : ℕ) : ℚ)) = 3 :=
      natFloor_spec _ 3 (by push_cast; norm_num) (by push_cast; norm_num)
    simp only [getTimeSegment, hc, hf, Prod.mk.injEq]
    norm_num
  · have hc : clamp01 (1 / 2 : ℚ) = 1 / 2 := by norm_num [clamp01]
    have hf : natFloor ((1 / 2 : ℚ) * ((3 : ℕ) : ℚ)) = 1 :=
      natFloor_spec _ 1 (by push_cast; norm_num) (by push_cast; norm_num)
    simp only [getTimeSegment, hc, hf, Prod.mk.injEq]
    norm_num

/-- C4 (witness): the time-mapping theorem applied at `time = 1/2` with
three segments. -/
theorem C4_witness :
    (1 : ℕ) ≤ 3 ∧
    ((getTimeSegment (1 / 2) 3).1 + 1 ≤ 3 ∧
     getTimeSegment 0 3 = (0, 0) ∧
     getTimeSegment 1 3 = (2, 1) ∧
     getTimeSegment (1 / 2) 3 = (1, 1 / 2)) :=
  ⟨by decide, C4_getTimeSegment (1 / 2) 3 (by decide)⟩

/-- The range variant of `valid` is true iff the index check passes and
every referenced vertex is finite at every step of the range. -/
theorem validRange_iff (m : TriangleMesh) (i lo hi : ℕ) :
    m.valid i lo hi = true ↔
      (((m.triangle i).v 0 < m.numVertices ∧
        (m.triangle i).v 1 < m.numVertices ∧
        (m.triangle i).v 2 < m.numVertices) ∧
       ∀ itime, lo ≤ itime → itime ≤ hi →
         (isvalid3 (m.vertex ((m.triangle i).v 0) itime) = true ∧
          isvalid3 (m.vertex ((m.triangle i).v 1) itime) = true ∧
          isvalid3 (m.vertex ((m.triangle i).v 2) itime) = true)) := by
  simp only [TriangleMesh.valid]
  split_ifs with h0 h1 h2
  · simp only [Bool.false_eq_true, false_iff]
    rintro ⟨⟨ha, -, -⟩, -⟩
    omega
  · simp only [Bool.false_eq_true, false_iff]
    rintro ⟨⟨-, hb, -⟩, -⟩
    omega
  · simp only [Bool.false_eq_true, false_iff]
    rintro ⟨⟨-, -, hc⟩, -⟩
    omega
  · simp only [List.all_eq_true, List.mem_range'_1, Bool.and_eq_true]
    constructor
    · intro hall
      refine ⟨⟨by omega, by omega, by omega⟩, fun itime ha hb => ?_⟩
      have hm := hall itime ⟨ha, by omega⟩
      exact ⟨hm.1.1, hm.1.2, hm.2⟩
    · rintro ⟨-, hstep⟩ itime ⟨ha, hb⟩
      have hm := hstep itime ha (by omega)
      exact ⟨⟨hm.1, hm.2.1⟩, hm.2.2⟩

/-- C5: a triangle with any out-of-range vertex index is invalid at every
time step, and validity over a step range holds iff the index check
passes and every referenced vertex has finite components at every step in
the range. -/
theorem C5_valid (m : TriangleMesh) (i lo hi : ℕ) :
    (∀ itime, (m.numVertices ≤ (m.triangle i).v 0 ∨
               m.numVertices ≤ (m.triangle i).v 1 ∨
               m.numVertices ≤ (m.triangle i).v 2) →
      m.valid1 i itime = false) ∧
    (m.valid i lo hi = true ↔
      (((m.triangle i).v 0 < m.numVertices ∧
        (m.triangle i).v 1 < m.numVertices ∧
        (m.triangle i).v 2 < m.numVertices) ∧
       ∀ itime, lo ≤ itime → itime ≤ hi →
         (isvalid3 (m.vertex ((m.triangle i).v 0) itime) = true ∧
          isvalid3 (m.vertex ((m.triangle i).v 1) itime) = true ∧
          isvalid3 (m.vertex ((m.triangle i).v 2) itime) = true))) := by
  refine ⟨fun itime hk => ?_, validRange_iff m i lo hi⟩
  by_contra hne
  have htrue : m.valid1 i itime = true := by
    cases h : m.valid1 i itime
    · exact absurd h hne
    · rfl
  have := ((validRange_iff m i itime itime).mp htrue).1
  omega

/-- C9: the all-time-steps build-bound query succeeds iff the vertex
indices are in range and every referenced vertex is finite at every time
step; on success the written box is exactly the box of the first time
step (computed from the cached step-0 vertices), not an aggregate. -/
theorem C9_buildBounds (m : TriangleMesh) (i : ℕ) (bbox : BBox3fa) :
    ((m.buildBounds i bbox).1 = true ↔
      (((m.triangle i).v 0 < m.numVertices ∧
        (m.triangle i).v 1 < m.numVertices ∧
        (m.triangle i).v 2 < m.numVertices) ∧
       ∀ t, t < m.numTimeSteps →
         (isvalid3 (m.vertex ((m.triangle i).v 0) t) = true ∧
          isvalid3 (m.vertex ((m.triangle i).v 1) t) = true ∧
          isvalid3 (m.vertex ((m.triangle i).v 2) t) = true))) ∧
    ((m.buildBounds i bbox).1 = true →
      (m.buildBounds i bbox).2 = m.bounds0 i ∧
      (m.buildBounds i bbox).2 = m.bounds i 0) := by
  constructor
  · simp only [TriangleMesh.buildBounds]
    split_ifs with h0 h1 h2 hall
    · simp only [Bool.false_eq_true, false_iff]
      rintro ⟨⟨ha, -, -⟩, -⟩
      omega
    · simp only [Bool.false_eq_true, false_iff]
      rintro ⟨⟨-, hb, -⟩, -⟩
      omega
    · simp only [Bool.false_eq_true, false_iff]
      rintro ⟨⟨-, -, hc⟩, -⟩
      omega
    · simp only [true_iff]
      simp only [List.all_eq_true, List.mem_range, Bool.and_eq_true] at hall
      refine ⟨⟨by omega, by omega, by omega⟩, fun t ht => ?_⟩
      have hm := hall t ht
      exact ⟨hm.1.1, hm.1.2, hm.2⟩
    · simp only [Bool.false_eq_true, false_iff]
      rintro ⟨-, hstep⟩
      refine hall ?_
      simp only [List.all_eq_true, List.mem_range, Bool.and_eq_true]
      intro t ht
      have hm := hstep t ht
      exact ⟨⟨hm.1, hm.2.1⟩, hm.2.2⟩
  · intro htrue
    have hsnd : (m.buildBounds i bbox).2 = m.bounds0 i := by
      simp only [TriangleMesh.buildBounds] at htrue ⊢
      split_ifs at htrue ⊢ <;> simp_all
    exact ⟨hsnd, hsnd⟩

/-- C10: whenever either fallible build-bound query returns false, the
out-parameter box is returned unchanged — no partial write happens before
the failure is detected. -/
theorem C10_no_partial_write (m : TriangleMesh) (i itime : ℕ)
    (bbox : BBox3fa) :
    ((m.buildBounds i bbox).1 = false → (m.buildBounds i bbox).2 = bbox) ∧
    ((m.buildBoundsSeg i itime bbox).1 = false →
      (m.buildBoundsSeg i itime bbox).2 = bbox) := by
  constructor
  · simp only [TriangleMesh.buildBounds]
    split_ifs <;> simp
  · simp only [TriangleMesh.buildBoundsSeg]
    split_ifs <;> simp

/-! Order lemmas for floats that are not NaN (the `min`/`max` selection
network of `bounds` behaves like a lattice on such values). -/

theorem Flt.le_trans_ {a b c : Flt} (h1 : Flt.le a b = true)
    (h2 : Flt.le b c = true) : Flt.le a c = true := by
  cases a <;> cases b <;> cases c <;> simp_all [Flt.le] <;> linarith

theorem Flt.min_nonNan {a b : Flt} (ha : a.isNan = false)
    (hb : b.isNan = false) : (Flt.min a b).isNan = false := by
  cases a <;> cases b <;> simp_all [Flt.min, Flt.lt, Flt.isNan] <;> split_ifs <;>
    simp [Flt.isNan]

theorem Flt.max_nonNan {a b : Flt} (ha : a.isNan = false)
    (hb : b.isNan = false) : (Flt.max a b).isNan = false := by
  cases a <;> cases b <;> simp_all [Flt.max, Flt.lt, Flt.isNan] <;> split_ifs <;>
    simp [Flt.isNan]

theorem Flt.min_le_left {a b : Flt} (ha : a.isNan = false)
    (hb : b.isNan = false) : Flt.le (Flt.min a b) a = true := by
  cases a <;> cases b <;>
    simp_all [Flt.min, Flt.lt, Flt.le, Flt.isNan] <;> split_ifs <;>
    simp_all [Flt.le] <;> linarith

theorem Flt.min_le_right {a b : Flt} (ha : a.isNan = false)
    (hb : b.isNan = false) : Flt.le (Flt.min a b) b = true := by
  cases a <;> cases b <;>
    simp_all [Flt.min, Flt.lt, Flt.le, Flt.isNan] <;> split_ifs <;>
    simp_all [Flt.le] <;> linarith

theorem Flt.le_max_left {a b : Flt} (ha : a.isNan = false)
    (hb : b.isNan = false) : Flt.le a (Flt.max a b) = true := by
  cases a <;> cases b <;>
    simp_all [Flt.max, Flt.lt, Flt.le, Flt.isNan] <;> split_ifs <;>
    simp_all [Flt.le] <;> linarith

theorem Flt.le_max_right {a b : Flt} (ha : a.isNan = false)
    (hb : b.isNan = false) : Flt.le b (Flt.max a b) = true := by
  cases a <;> cases b <;>
    simp_all [Flt.max, Flt.lt, Flt.le, Flt.isNan] <;> split_ifs <;>
    simp_all [Flt.le] <;> linarith

/-- C8 (counterexample): on a mesh whose vertices are NaN the per-step box
does not contain the vertices it was computed from (NaN compares false),
even though all vertex indices are in range — the claim needs the
vertices to be non-NaN. -/
theorem C8_counterexample :
    (mNan.triangle 0).v 0 < mNan.numVertices ∧
    (mNan.triangle 0).v 1 < mNan.numVertices ∧
    (mNan.triangle 0).v 2 < mNan.numVertices ∧
    Flt.le ((mNan.bounds 0 0).lower 0)
      (mNan.vertex ((mNan.triangle 0).v 0) 0 0) = false := by decide

/-- C8 (amended): for a primitive whose vertex indices are in range and
whose three vertices have no NaN component at the queried step, the
per-step box `bounds(i,itime)` contains each of the three vertex
positions on every axis. -/
theorem C8_bounds_contains (m : TriangleMesh) (i itime : ℕ)
    (h0 : (m.triangle i).v 0 < m.numVertices)
    (h1 : (m.triangle i).v 1 < m.numVertices)
    (h2 : (m.triangle i).v 2 < m.numVertices)
    (hn : ∀ k : Fin 3,
      (m.vertex ((m.triangle i).v 0) itime k).isNan = false ∧
      (m.vertex ((m.triangle i).v 1) itime k).isNan = false ∧
      (m.vertex ((m.triangle i).v 2) itime k).isNan = false) :
    ∀ k : Fin 3,
      (Flt.le ((m.bounds i itime).lower k)
         (m.vertex ((m.triangle i).v 0) itime k) = true ∧
       Flt.le (m.vertex ((m.triangle i).v 0) itime k)
         ((m.bounds i itime).upper k) = true) ∧
      (Flt.le ((m.bounds i itime).lower k)
         (m.vertex ((m.triangle i).v 1) itime k) = true ∧
       Flt.le (m.vertex ((m.triangle i).v 1) itime k)
         ((m.bounds i itime).upper k) = true) ∧
      (Flt.le ((m.bounds i itime).lower k)
         (m.vertex ((m.triangle i).v 2) itime k) = true ∧
       Flt.le (m.vertex ((m.triangle i).v 2) itime k)
         ((m.bounds i itime).upper k) = true) := by
  intro k
  obtain ⟨ha, hb, hc⟩ := hn k
  simp only [TriangleMesh.bounds, vmin3, vmax3]
  have hab : (Flt.min (m.vertex ((m.triangle i).v 0) itime k)
      (m.vertex ((m.triangle i).v 1) itime k)).isNan = false :=
    Flt.min_nonNan ha hb
  have hab' : (Flt.max (m.vertex ((m.triangle i).v 0) itime k)
      (m.vertex ((m.triangle i).v 1) itime k)).isNan = false :=
    Flt.max_nonNan ha hb
  refine ⟨⟨?_, ?_⟩, ⟨?_, ?_⟩, ⟨?_, ?_⟩⟩
  · exact Flt.le_trans_ (Flt.min_le_left hab hc) (Flt.min_le_left ha hb)
  · exact Flt.le_trans_ (Flt.le_max_left ha hb) (Flt.le_max_left hab' hc)
  · exact Flt.le_trans_ (Flt.min_le_left hab hc) (Flt.min_le_right ha hb)
  · exact Flt.le_trans_ (Flt.le_max_right ha hb) (Flt.le_max_left hab' hc)
  · exact Flt.min_le_right hab hc
  · exact Flt.le_max_right hab' hc

/-- C8 (witness): the amended containment theorem applied to the concrete
all-finite mesh at primitive 0, step 0. -/
theorem C8_witness :
    T012.v 0 < mQ.numVertices ∧
    (∀ k : Fin 3,
      (mQ.vertex ((mQ.triangle 0).v 0) 0 k).isNan = false ∧
      (mQ.vertex ((mQ.triangle 0).v 1) 0 k).isNan = false ∧
      (mQ.vertex ((mQ.triangle 0).v 2) 0 k).isNan = false) ∧
    (∀ k : Fin 3,
      (Flt.le ((mQ.bounds 0 0).lower k)
         (mQ.vertex ((mQ.triangle 0).v 0) 0 k) = true ∧
       Flt.le (mQ.vertex ((mQ.triangle 0).v 0) 0 k)
         ((mQ.bounds 0 0).upper k) = true) ∧
      (Flt.le ((mQ.bounds 0 0).lower k)
         (mQ.vertex ((mQ.triangle 0).v 1) 0 k) = true ∧
       Flt.le (mQ.vertex ((mQ.triangle 0).v 1) 0 k)
         ((mQ.bounds 0 0).upper k) = true) ∧
      (Flt.le ((mQ.bounds 0 0).lower k)
         (mQ.vertex ((mQ.triangle 0).v 2) 0 k) = true ∧
       Flt.le (mQ.vertex ((mQ.triangle 0).v 2) 0 k)
         ((mQ.bounds 0 0).upper k) = true)) :=
  ⟨by decide, by decide,
    C8_bounds_contains mQ 0 0 (by decide) (by decide) (by decide) (by decide)⟩

/-- C2 (witness): the amended sentinel theorem applied to the disjoint
concrete triangles (0,1,2) and (3,4,5). -/
theorem C2_witness :
    (sharedVals T012 T345).card ≤ 1 ∧ ¬ degenerateShare T012 T345 ∧
    sharedEdge T012 T345 = -1 :=
  ⟨by decide, by unfold degenerateShare; decide,
    C2_sharedEdge_sentinel T012 T345 (by decide) (by decide) (by decide)
      (by unfold degenerateShare; decide)⟩

/-- The time mapping sends time 0 to segment 0 with fraction 0. -/
theorem getTimeSegment_zero (ns : ℕ) : getTimeSegment 0 ns = (0, 0) := by
  have hc : clamp01 (0 : ℚ) = 0 := by norm_num [clamp01]
  have hf : natFloor (0 : ℚ) = 0 :=
    natFloor_spec _ 0 (by norm_num) (by norm_num)
  simp only [getTimeSegment, hc, zero_mul, hf, Prod.mk.injEq]
  constructor
  · exact Nat.zero_min _
  · have hm : Nat.min 0 (ns - 1) = 0 := Nat.zero_min _
    rw [hm, Nat.cast_zero, sub_zero]

/-- Blending two finite control-point vectors with weights `1-f` and `f`
at `f = 0` returns the first vector exactly. -/
theorem madd4_frac_zero (a b : Fin 4 → ℚ) (f : ℚ) (hf : f = 0) :
    madd4 (1 - f) (finV4 a) f (finV4 b) = finV4 a := by
  subst hf
  funext k
  simp only [madd4, finV4, Flt.mul_fin_fin, Flt.add_fin_fin]
  norm_num

/-- Blending two finite control-point vectors with weights `1-f` and `f`
at `f = 1` returns the second vector exactly. -/
theorem madd4_frac_one (a b : Fin 4 → ℚ) (f : ℚ) (hf : f = 1) :
    madd4 (1 - f) (finV4 a) f (finV4 b) = finV4 b := by
  subst hf
  funext k
  simp only [madd4, finV4, Flt.mul_fin_fin, Flt.add_fin_fin]
  norm_num

/-- C7 (counterexample): with a +inf control point at step 1, the
continuous-time gather at time 0 (mapped fraction exactly 0) is NaN on
the first control point while the discrete step-0 gather is finite — the
multiplication `0 * inf` poisons the blend, so the claimed exact
reduction needs finite data. -/
theorem C7_counterexample :
    getTimeSegment 0 cInf.numSegments = (0, 0) ∧
    2 ≤ cInf.numTimeSteps ∧
    (cInf.gatherTime 0 0).1 0 = Flt.nan ∧
    (cInf.gather 0 (getTimeSegment 0 cInf.numSegments).1).1 0 = Flt.fin 0 ∧
    (cInf.gatherTime 0 0).1 0 ≠
      (cInf.gather 0 (getTimeSegment 0 cInf.numSegments).1).1 0 := by
  have hs : getTimeSegment 0 cInf.numSegments = (0, 0) := getTimeSegment_zero _
  have hmulinf : Flt.mul (Flt.fin 0) Flt.pinf = Flt.nan := by
    simp [Flt.mul]
  have h0 : cInf.vert 0 0 = fun _ => Flt.fin 0 := by
    funext k
    simp [cInf]
  have h1 : cInf.vert (0 + 1) 0 = fun _ => Flt.pinf := by
    funext k
    simp [cInf]
  have hcont : (cInf.gatherTime 0 0).1 0 = Flt.nan := by
    simp only [CurveGeometry.gatherTime, hs, CurveGeometry.gather,
      CurveGeometry.vertex, h0, h1, madd4]
    rfl
  have hdisc : (cInf.gather 0 (getTimeSegment 0 cInf.numSegments).1).1 0 =
      Flt.fin 0 := by
    simp only [hs, CurveGeometry.gather, CurveGeometry.vertex, h0]
  refine ⟨hs, by decide, hcont, hdisc, ?_⟩
  rw [hcont, hdisc]
  simp

/-- C7 (amended): for a curve geometry whose control points and tangents
are finite, a continuous-time gather whose mapped blend fraction is
exactly 0 (resp. 1) produces exactly the discrete per-step gather at the
bracketing segment's lower (resp. upper) time step, for both the bezier
and the hermite gathers. -/
theorem C7_gather_endpoint (c : CurveGeometry)
    (wv wt : ℕ → ℕ → Fin 4 → ℚ) (i : ℕ) (time : ℚ)
    (hv : c.vert = fun itime j => finV4 (wv itime j))
    (ht : c.tang = fun itime j => finV4 (wt itime j))
    (hns : 2 ≤ c.numTimeSteps) :
    ((getTimeSegment time c.numSegments).2 = 0 →
      c.gatherTime i time =
        c.gather i (getTimeSegment time c.numSegments).1 ∧
      c.gather_hermiteTime i time =
        c.gather_hermite i (getTimeSegment time c.numSegments).1) ∧
    ((getTimeSegment time c.numSegments).2 = 1 →
      c.gatherTime i time =
        c.gather i ((getTimeSegment time c.numSegments).1 + 1) ∧
      c.gather_hermiteTime i time =
        c.gather_hermite i ((getTimeSegment time c.numSegments).1 + 1)) := by
  constructor
  · intro hfr
    constructor
    · simp only [CurveGeometry.gatherTime, CurveGeometry.gather,
        CurveGeometry.vertex, hv]
      rw [madd4_frac_zero _ _ _ hfr, madd4_frac_zero _ _ _ hfr,
        madd4_frac_zero _ _ _ hfr, madd4_frac_zero _ _ _ hfr]
    · simp only [CurveGeometry.gather_hermiteTime, CurveGeometry.gather_hermite,
        CurveGeometry.vertex, CurveGeometry.tangent, hv, ht]
      rw [madd4_frac_zero _ _ _ hfr, madd4_frac_zero _ _ _ hfr,
        madd4_frac_zero _ _ _ hfr, madd4_frac_zero _ _ _ hfr]
  · intro hfr
    constructor
    · simp only [CurveGeometry.gatherTime, CurveGeometry.gather,
        CurveGeometry.vertex, hv]
      rw [madd4_frac_one _ _ _ hfr, madd4_frac_one _ _ _ hfr,
        madd4_frac_one _ _ _ hfr, madd4_frac_one _ _ _ hfr]
    · simp only [CurveGeometry.gather_hermiteTime, CurveGeometry.gather_hermite,
        CurveGeometry.vertex, CurveGeometry.tangent, hv, ht]
      rw [madd4_frac_one _ _ _ hfr, madd4_frac_one _ _ _ hfr,
        madd4_frac_one _ _ _ hfr, madd4_frac_one _ _ _ hfr]

/-- C7 (witness): the amended endpoint-reduction theorem applied to the
concrete all-finite curve at time 0. -/
theorem C7_witness :
    cQ.vert = (fun itime j => finV4 (wCurve itime j)) ∧
    2 ≤ cQ.numTimeSteps ∧
    (((getTimeSegment 0 cQ.numSegments).2 = 0 →
      cQ.gatherTime 0 0 = cQ.gather 0 (getTimeSegment 0 cQ.numSegments).1 ∧
      cQ.gather_hermiteTime 0 0 =
        cQ.gather_hermite 0 (getTimeSegment 0 cQ.numSegments).1) ∧
     ((getTimeSegment 0 cQ.numSegments).2 = 1 →
      cQ.gatherTime 0 0 =
        cQ.gather 0 ((getTimeSegment 0 cQ.numSegments).1 + 1) ∧
      cQ.gather_hermiteTime 0 0 =
        cQ.gather_hermite 0 ((getTimeSegment 0 cQ.numSegments).1 + 1))) :=
  ⟨rfl, by decide, C7_gather_endpoint cQ wCurve wCurve 0 0 rfl rfl (by decide)⟩

/-! Reduction of the mesh bound computations to exact rational arithmetic
when the vertex data is finite. -/

/-- Extensionality for boxes. -/
theorem BBox_ext {X Y : BBox3fa} (h1 : X.lower = Y.lower)
    (h2 : X.upper = Y.upper) : X = Y := by
  cases X
  cases Y
  simp_all

theorem bounds_fin (m : TriangleMesh) (w : ℕ → ℕ → Fin 3 → ℚ)
    (hw : m.vert = fun itime j => finV3 (w itime j)) (i itime : ℕ) :
    m.bounds i itime = finBox (qbounds m w i itime) := by
  refine BBox_ext ?_ ?_ <;> funext k <;>
    simp [TriangleMesh.bounds, TriangleMesh.vertex, qbounds, finBox, hw,
      vmin3, vmax3, finV3, Flt.min_fin_fin, Flt.max_fin_fin]

theorem lerpBox_fin (a b : QBox) (t : ℚ) :
    lerpBox (finBox a) (finBox b) t = finBox (qlerpBox a b t) := by
  refine BBox_ext ?_ ?_ <;> funext k <;>
    simp [lerpBox, finBox, qlerpBox, finV3, Flt.lerp_fin_fin]

theorem boundsAtTime_fin (m : TriangleMesh) (w : ℕ → ℕ → Fin 3 → ℚ)
    (hw : m.vert = fun itime j => finV3 (w itime j)) (i : ℕ) (time : ℚ) :
    m.boundsAtTime i time = finBox (qboundsAtTime m w i time) := by
  simp only [TriangleMesh.boundsAtTime, qboundsAtTime,
    bounds_fin m w hw, lerpBox_fin]

theorem linearBoundsStep_fin (m : TriangleMesh) (w : ℕ → ℕ → Fin 3 → ℚ)
    (hw : m.vert = fun itime j => finV3 (w itime j))
    (primID : ℕ) (t0 t1 : ℚ) (a b : QBox) (idx : ℕ) :
    TriangleMesh.linearBoundsStep m primID t0 t1 (finBox a, finBox b) idx =
      (finBox (qlbStep m w primID t0 t1 (a, b) idx).1,
       finBox (qlbStep m w primID t0 t1 (a, b) idx).2) := by
  refine Prod.ext ?_ ?_ <;> refine BBox_ext ?_ ?_ <;> funext k <;>
    simp [TriangleMesh.linearBoundsStep, qlbStep, qlerpBox, lerpBox, frel,
      bounds_fin m w hw, finBox, finV3, Flt.lerp_fin_fin, Flt.sub_fin_fin,
      Flt.min_fin_fin, Flt.max_fin_fin, Flt.add_fin_fin]

theorem linearBoundsFold_fin (m : TriangleMesh) (w : ℕ → ℕ → Fin 3 → ℚ)
    (hw : m.vert = fun itime j => finV3 (w itime j))
    (primID : ℕ) (t0 t1 : ℚ) :
    ∀ (l : List ℕ) (a b : QBox),
      l.foldl (TriangleMesh.linearBoundsStep m primID t0 t1)
          (finBox a, finBox b) =
        (finBox (l.foldl (qlbStep m w primID t0 t1) (a, b)).1,
         finBox (l.foldl (qlbStep m w primID t0 t1) (a, b)).2) := by
  intro l
  induction l with
  | nil => intro a b; rfl
  | cons x tl ih =>
    intro a b
    rw [List.foldl_cons, List.foldl_cons, linearBoundsStep_fin m w hw]
    rw [ih ((qlbStep m w primID t0 t1 (a, b) x).1)
      ((qlbStep m w primID t0 t1 (a, b) x).2)]

theorem linearBounds_fin (m : TriangleMesh) (w : ℕ → ℕ → Fin 3 → ℚ)
    (hw : m.vert = fun itime j => finV3 (w itime j))
    (primID : ℕ) (t0 t1 : ℚ) :
    m.linearBounds primID t0 t1 =
      (finBox (qlinearBounds m w primID t0 t1).1,
       finBox (qlinearBounds m w primID t0 t1).2) := by
  simp only [TriangleMesh.linearBounds, qlinearBounds,
    boundsAtTime_fin m w hw]
  rw [linearBoundsFold_fin m w hw]

/-! Scalar lemmas about the expansion fold: it only moves lower values
down (upper values up), and after it runs, interpolating the two
endpoint scalars at any processed step's relative position bounds that
step's true value. -/

theorem sfoldLo_mono (f g : ℕ → ℚ) :
    ∀ (l : List ℕ) (s : ℚ × ℚ),
      (l.foldl (sstepLo f g) s).1 ≤ s.1 ∧
      (l.foldl (sstepLo f g) s).2 ≤ s.2 := by
  intro l
  induction l with
  | nil => intro s; exact ⟨le_refl _, le_refl _⟩
  | cons a tl ih =>
    intro s
    rw [List.foldl_cons]
    have hd : Min.min (g a - ((1 - f a) * s.1 + f a * s.2)) 0 ≤ 0 :=
      min_le_right _ _
    have h1 := ih (sstepLo f g s a)
    refine ⟨le_trans h1.1 ?_, le_trans h1.2 ?_⟩
    · simp only [sstepLo]
      linarith
    · simp only [sstepLo]
      linarith

theorem sfoldUp_mono (f g : ℕ → ℚ) :
    ∀ (l : List ℕ) (s : ℚ × ℚ),
      s.1 ≤ (l.foldl (sstepUp f g) s).1 ∧
      s.2 ≤ (l.foldl (sstepUp f g) s).2 := by
  intro l
  induction l with
  | nil => intro s; exact ⟨le_refl _, le_refl _⟩
  | cons a tl ih =>
    intro s
    rw [List.foldl_cons]
    have hd : 0 ≤ Max.max (g a - ((1 - f a) * s.1 + f a * s.2)) 0 :=
      le_max_right _ _
    have h1 := ih (sstepUp f g s a)
    refine ⟨le_trans ?_ h1.1, le_trans ?_ h1.2⟩
    · simp only [sstepUp]
      linarith
    · simp only [sstepUp]
      linarith

theorem sfoldLo_contains (f g : ℕ → ℚ) :
    ∀ (l : List ℕ) (s : ℚ × ℚ) (j : ℕ), j ∈ l → 0 ≤ f j → f j ≤ 1 →
      (1 - f j) * (l.foldl (sstepLo f g) s).1 +
        f j * (l.foldl (sstepLo f g) s).2 ≤ g j := by
  intro l
  induction l with
  | nil => intro s j hj; exact absurd hj (List.not_mem_nil j)
  | cons a tl ih =>
    intro s j hj h0 h1
    rw [List.foldl_cons]
    rcases List.mem_cons.mp hj with heq | hmem
    · subst heq
      have hmono := sfoldLo_mono f g tl (sstepLo f g s j)
      have hd : Min.min (g j - ((1 - f j) * s.1 + f j * s.2)) 0 ≤
          g j - ((1 - f j) * s.1 + f j * s.2) := min_le_left _ _
      have hstep : (1 - f j) * (sstepLo f g s j).1 +
          f j * (sstepLo f g s j).2 ≤ g j := by
        simp only [sstepLo]
        have key : (1 - f j) *
              (s.1 + Min.min (g j - ((1 - f j) * s.1 + f j * s.2)) 0) +
            f j * (s.2 + Min.min (g j - ((1 - f j) * s.1 + f j * s.2)) 0) =
            ((1 - f j) * s.1 + f j * s.2) +
              Min.min (g j - ((1 - f j) * s.1 + f j * s.2)) 0 := by ring
        rw [key]
        linarith
      have hw1 : (1 - f j) * (tl.foldl (sstepLo f g) (sstepLo f g s j)).1 ≤
          (1 - f j) * (sstepLo f g s j).1 :=
        mul_le_mul_of_nonneg_left hmono.1 (by linarith)
      have hw2 : f j * (tl.foldl (sstepLo f g) (sstepLo f g s j)).2 ≤
          f j * (sstepLo f g s j).2 :=
        mul_le_mul_of_nonneg_left hmono.2 h0
      linarith
    · exact ih (sstepLo f g s a) j hmem h0 h1

theorem sfoldUp_contains (f g : ℕ → ℚ) :
    ∀ (l : List ℕ) (s : ℚ × ℚ) (j : ℕ), j ∈ l → 0 ≤ f j → f j ≤ 1 →
      g j ≤ (1 - f j) * (l.foldl (sstepUp f g) s).1 +
        f j * (l.foldl (sstepUp f g) s).2 := by
  intro l
  induction l with
  | nil => intro s j hj; exact absurd hj (List.not_mem_nil j)
  | cons a tl ih =>
    intro s j hj h0 h1
    rw [List.foldl_cons]
    rcases List.mem_cons.mp hj with heq | hmem
    · subst heq
      have hmono := sfoldUp_mono f g tl (sstepUp f g s j)
      have hd : g j - ((1 - f j) * s.1 + f j * s.2) ≤
          Max.max (g j - ((1 - f j) * s.1 + f j * s.2)) 0 := le_max_left _ _
      have hstep : g j ≤ (1 - f j) * (sstepUp f g s j).1 +
          f j * (sstepUp f g s j).2 := by
        simp only [sstepUp]
        have key : (1 - f j) *
              (s.1 + Max.max (g j - ((1 - f j) * s.1 + f j * s.2)) 0) +
            f j * (s.2 + Max.max (g j - ((1 - f j) * s.1 + f j * s.2)) 0) =
            ((1 - f j) * s.1 + f j * s.2) +
              Max.max (g j - ((1 - f j) * s.1 + f j * s.2)) 0 := by ring
        rw [key]
        linarith
      have hw1 : (1 - f j) * (sstepUp f g s j).1 ≤
          (1 - f j) * (tl.foldl (sstepUp f g) (sstepUp f g s j)).1 :=
        mul_le_mul_of_nonneg_left hmono.1 (by linarith)
      have hw2 : f j * (sstepUp f g s j).2 ≤
          f j * (tl.foldl (sstepUp f g) (sstepUp f g s j)).2 :=
        mul_le_mul_of_nonneg_left hmono.2 h0
      linarith
    · exact ih (sstepUp f g s a) j hmem h0 h1

/-! The vector-valued expansion fold acts componentwise: on each axis its
lower (upper) components follow the scalar fold. -/

theorem qfold_lower (m : TriangleMesh) (w : ℕ → ℕ → Fin 3 → ℚ)
    (primID : ℕ) (t0 t1 : ℚ) :
    ∀ (l : List ℕ) (bb : QBox × QBox) (k : Fin 3),
      ((l.foldl (qlbStep m w primID t0 t1) bb).1.lower k,
       (l.foldl (qlbStep m w primID t0 t1) bb).2.lower k) =
        l.foldl
          (sstepLo (frel m.numSegments t0 t1)
            (fun idx => (qbounds m w primID idx).lower k))
          (bb.1.lower k, bb.2.lower k) := by
  intro l
  induction l with
  | nil => intro bb k; rfl
  | cons a tl ih =>
    intro bb k
    rw [List.foldl_cons, List.foldl_cons, ih]
    rfl

theorem qfold_upper (m : TriangleMesh) (w : ℕ → ℕ → Fin 3 → ℚ)
    (primID : ℕ) (t0 t1 : ℚ) :
    ∀ (l : List ℕ) (bb : QBox × QBox) (k : Fin 3),
      ((l.foldl (qlbStep m w primID t0 t1) bb).1.upper k,
       (l.foldl (qlbStep m w primID t0 t1) bb).2.upper k) =
        l.foldl
          (sstepUp (frel m.numSegments t0 t1)
            (fun idx => (qbounds m w primID idx).upper k))
          (bb.1.upper k, bb.2.upper k) := by
  intro l
  induction l with
  | nil => intro bb k; rfl
  | cons a tl ih =>
    intro bb k
    rw [List.foldl_cons, List.foldl_cons, ih]
    rfl

/-- C1: for a mesh with finite (exact rational) vertex data, at least two
time steps, and a time range `[t0,t1] ⊆ [0,1]` with `t0 < t1`, the
conservative linear bound returned by `linearBounds(primID, time_range)`
contains the true per-step box of every discrete step `j` whose
parametric time `j / numSegments` lies in `[t0,t1]`: interpolating the
returned endpoint boxes at that step's relative position within the
range yields a box containing `bounds(primID, j)` on every axis. -/
theorem C1_linearBounds_conservative (m : TriangleMesh)
    (w : ℕ → ℕ → Fin 3 → ℚ)
    (hw : m.vert = fun itime j => finV3 (w itime j))
    (hns : 2 ≤ m.numTimeSteps)
    (primID j : ℕ) (t0 t1 : ℚ)
    (h00 : 0 ≤ t0) (h01 : t0 < t1) (h11 : t1 ≤ 1)
    (hj0 : t0 ≤ (j : ℚ) / (m.numSegments : ℚ))
    (hj1 : (j : ℚ) / (m.numSegments : ℚ) ≤ t1) :
    ∀ k : Fin 3,
      Flt.le ((lerpBox (m.linearBounds primID t0 t1).1
          (m.linearBounds primID t0 t1).2
          (frel m.numSegments t0 t1 j)).lower k)
        ((m.bounds primID j).lower k) = true ∧
      Flt.le ((m.bounds primID j).upper k)
        ((lerpBox (m.linearBounds primID t0 t1).1
          (m.linearBounds primID t0 t1).2
          (frel m.numSegments t0 t1 j)).upper k) = true := by
  intro k
  have hns1 : 1 ≤ m.numSegments := by
    simp only [TriangleMesh.numSegments]
    omega
  have hnsQ : (0 : ℚ) < (m.numSegments : ℚ) := by
    exact_mod_cast Nat.lt_of_lt_of_le Nat.zero_lt_one hns1
  have hf0 : 0 ≤ frel m.numSegments t0 t1 j := by
    rw [frel]
    apply div_nonneg
    · linarith
    · linarith
  have hf1 : frel m.numSegments t0 t1 j ≤ 1 := by
    rw [frel, div_le_one (by linarith)]
    linarith
  have hmul0 : t0 * (m.numSegments : ℚ) ≤ (j : ℚ) := by
    have := (le_div_iff hnsQ).mp hj0
    linarith
  have hmul1 : (j : ℚ) ≤ t1 * (m.numSegments : ℚ) := by
    have := (div_le_iff hnsQ).mp hj1
    linarith
  have hilow : Int.toNat ⌈t0 * (m.numSegments : ℚ)⌉ ≤ j := by
    rw [Int.toNat_le]
    apply Int.ceil_le.mpr
    push_cast
    exact hmul0
  have hiup : j ≤ Int.toNat ⌊t1 * (m.numSegments : ℚ)⌋ := by
    have hfl : (j : ℤ) ≤ ⌊t1 * (m.numSegments : ℚ)⌋ := by
      apply Int.le_floor.mpr
      push_cast
      exact hmul1
    have hpos : 0 ≤ ⌊t1 * (m.numSegments : ℚ)⌋ :=
      le_trans (Int.natCast_nonneg j) hfl
    rw [Int.le_toNat hpos]
    exact hfl
  have hmem : j ∈ List.range' (Int.toNat ⌈t0 * (m.numSegments : ℚ)⌉)
      (Int.toNat ⌊t1 * (m.numSegments : ℚ)⌋ + 1 -
        Int.toNat ⌈t0 * (m.numSegments : ℚ)⌉) := by
    rw [List.mem_range'_1]
    omega
  have hQ : qlinearBounds m w primID t0 t1 =
      (List.range' (Int.toNat ⌈t0 * (m.numSegments : ℚ)⌉)
        (Int.toNat ⌊t1 * (m.numSegments : ℚ)⌋ + 1 -
          Int.toNat ⌈t0 * (m.numSegments : ℚ)⌉)).foldl
        (qlbStep m w primID t0 t1)
        (qboundsAtTime m w primID t0, qboundsAtTime m w primID t1) := rfl
  rw [linearBounds_fin m w hw, bounds_fin m w hw, lerpBox_fin]
  simp only [finBox, finV3, Flt.le_fin_fin, qlerpBox]
  rw [hQ]
  constructor
  · have hcomp := qfold_lower m w primID t0 t1
      (List.range' (Int.toNat ⌈t0 * (m.numSegments : ℚ)⌉)
        (Int.toNat ⌊t1 * (m.numSegments : ℚ)⌋ + 1 -
          Int.toNat ⌈t0 * (m.numSegments : ℚ)⌉))
      (qboundsAtTime m w primID t0, qboundsAtTime m w primID t1) k
    have h1 := congrArg Prod.fst hcomp
    have h2 := congrArg Prod.snd hcomp
    simp only at h1 h2
    rw [h1, h2]
    exact sfoldLo_contains (frel m.numSegments t0 t1)
      (fun idx => (qbounds m w primID idx).lower k) _ _ j hmem hf0 hf1
  · have hcomp := qfold_upper m w primID t0 t1
      (List.range' (Int.toNat ⌈t0 * (m.numSegments : ℚ)⌉)
        (Int.toNat ⌊t1 * (m.numSegments : ℚ)⌋ + 1 -
          Int.toNat ⌈t0 * (m.numSegments : ℚ)⌉))
      (qboundsAtTime m w primID t0, qboundsAtTime m w primID t1) k
    have h1 := congrArg Prod.fst hcomp
    have h2 := congrArg Prod.snd hcomp
    simp only at h1 h2
    rw [h1, h2]
    exact sfoldUp_contains (frel m.numSegments t0 t1)
      (fun idx => (qbounds m w primID idx).upper k) _ _ j hmem hf0 hf1

/-- C1 (witness): the conservative-bound theorem applied to the concrete
two-step mesh over the full time range [0,1] at step 0, axis 0. -/
theorem C1_witness :
    mQ.vert = (fun itime j => finV3 (wZero itime j)) ∧
    2 ≤ mQ.numTimeSteps ∧
    (0 : ℚ) ≤ 0 ∧ (0 : ℚ) < 1 ∧ (1 : ℚ) ≤ 1 ∧
    (0 : ℚ) ≤ ((0 : ℕ) : ℚ) / (mQ.numSegments : ℚ) ∧
    ((0 : ℕ) : ℚ) / (mQ.numSegments : ℚ) ≤ 1 ∧
    (Flt.le ((lerpBox (mQ.linearBounds 0 0 1).1 (mQ.linearBounds 0 0 1).2
        (frel mQ.numSegments 0 1 0)).lower 0)
      ((mQ.bounds 0 0).lower 0) = true ∧
     Flt.le ((mQ.bounds 0 0).upper 0)
      ((lerpBox (mQ.linearBounds 0 0 1).1 (mQ.linearBounds 0 0 1).2
        (frel mQ.numSegments 0 1 0)).upper 0) = true) :=
  ⟨rfl, by decide, by decide, by decide, by decide, by simp, by simp,
    C1_linearBounds_conservative mQ wZero rfl (by decide) 0 0 0 1
      (by decide) (by decide) (by decide) (by simp) (by simp) 0⟩
